import Mathlib

set_option maxRecDepth 4000

/-!
Verification of the command-composition and option-resolution engine of the
`git-fzf` command-line tool (package `internal/command`, files `fzf.go`,
`diff.go`, `log.go`, `stash.go`).

The Go code is shallowly embedded: pure Go string functions become Lean
functions over `String` / `List Char`, environment access becomes an explicit
`String → String` argument (Go's `os.Getenv` returns `""` for an absent
variable), the external process executor becomes an explicit argument of the
`Run` models, and a Go runtime panic (out-of-range slice index) is modelled by
`Option.none` / a dedicated `panicked` flag.
-/

namespace GitFzf

/-- Whitespace predicate of Go's `unicode.IsSpace` restricted to the Latin-1
range (the table Go consults for characters below U+0100): `\t`, `\n`, `\v`,
`\f`, `\r`, space, U+0085 (NEL) and U+00A0 (NBSP).  All inputs appearing in
the repository and in the claims are ASCII, where this coincides with Go. -/
def goIsSpace (c : Char) : Bool :=
  c = ' ' || c = '\t' || c = '\n' || c = '\x0b' || c = '\x0c' || c = '\r' ||
  c = '\u0085' || c = '\u00A0'

/-- `strings.TrimSpace`: drop leading and trailing whitespace. -/
def trimSpace (l : List Char) : List Char :=
  ((l.dropWhile goIsSpace).reverse.dropWhile goIsSpace).reverse

/-- `strings.Split` with a one-character separator: `n` separators yield
`n + 1` (possibly empty) pieces; the empty input yields `[[]]`. -/
def splitOnChar (sep : Char) : List Char → List (List Char)
  | [] => [[]]
  | c :: rest =>
    match splitOnChar sep rest with
    | [] => [[]]
    | h :: t => if c = sep then [] :: h :: t else (c :: h) :: t

/-- Helper of `goFields`: `cur` is the reversed field currently being read. -/
def goFieldsAux : List Char → List Char → List (List Char)
  | [], cur => if cur = [] then [] else [cur.reverse]
  | c :: rest, cur =>
    if goIsSpace c then
      if cur = [] then goFieldsAux rest [] else cur.reverse :: goFieldsAux rest []
    else goFieldsAux rest (c :: cur)

/-- `strings.Fields`: split around runs of whitespace; no empty fields. -/
def goFields (l : List Char) : List (List Char) :=
  goFieldsAux l []

/-- Join a list of lines with a separating character (`strings.Join`). -/
def joinChar (sep : Char) : List (List Char) → List Char
  | [] => []
  | [l] => l
  | l :: rest => l ++ sep :: joinChar sep rest

/-- Map a fallible function over a list, failing if any element fails. -/
def optMap (f : α → Option β) : List α → Option (List β)
  | [] => some []
  | a :: rest =>
    match f a, optMap f rest with
    | some b, some bs => some (b :: bs)
    | _, _ => none

/-- `writeFzfResult` from `internal/command/fzf.go` (the writer `ioOut` is
modelled as always succeeding, so the wrapped write error path does not
arise).  The raw finder output is trimmed, split on `"\n"`, each line is split
into whitespace-separated fields and the field at `column` is selected and
trimmed; `fields[column]` in Go panics when the line has at most `column`
fields, which is modelled by `none`.  `some s` means the function returned
`nil` after writing exactly the bytes `s` to `ioOut`. -/
def writeFzfResult (out : String) (column : Nat) : Option String :=
  let lines := splitOnChar '\n' (trimSpace out.data)
  match optMap (fun line => ((goFields line)[column]?).map trimSpace) lines with
  | none => none
  | some filePaths => some (String.mk (joinChar '\n' filePaths ++ ['\n']))

/-- `isShellSpecialVar` from Go's `os` package (`os/env.go`): the one-character
shell special variables `$*`, `$#`, `$$`, `$@`, `$!`, `$?`, `$-`, `$0`…`$9`. -/
def isShellSpecialVar (c : Char) : Bool :=
  c = '*' || c = '#' || c = '$' || c = '@' || c = '!' || c = '?' || c = '-' ||
  ('0' ≤ c && c ≤ '9')

/-- `isAlphaNum` from Go's `os` package: underscore, digits and ASCII letters. -/
def isAlphaNum (c : Char) : Bool :=
  c = '_' || ('0' ≤ c && c ≤ '9') || ('a' ≤ c && c ≤ 'z') || ('A' ≤ c && c ≤ 'Z')

/-- The `s[0] == '{'` branch of Go's `os.getShellName`, applied to the part
after the opening brace: scan to the closing brace; `([], 1)` eats a lone
`${`, `([], 2)` eats an empty `${}`, otherwise the name up to `}` is read. -/
def braceShellName (rest : List Char) : List Char × Nat :=
  let pre := rest.takeWhile (fun x => x != '}')
  if pre.length = rest.length then ([], 1)
  else if pre = [] then ([], 2)
  else (pre, pre.length + 2)

/-- Go's `os.getShellName`, applied to the input after a `$`: returns the
variable name and the number of input characters it occupies.  An empty name
with positive width is invalid syntax to be eaten; an empty name with width
`0` means the `$` is kept verbatim. -/
def getShellName : List Char → List Char × Nat
  | [] => ([], 0)
  | c :: rest =>
    if c = '{' then
      match rest with
      | c1 :: '}' :: _ => if isShellSpecialVar c1 then ([c1], 3) else braceShellName rest
      | _ => braceShellName rest
    else if isShellSpecialVar c then ([c], 1)
    else
      let name := (c :: rest).takeWhile isAlphaNum
      (name, name.length)

/-- Fuel-driven worker for `expandCollect` (the fuel makes the recursion
structural, so that concrete instances reduce in the kernel).  Mirrors Go's
`os.Expand` with the side-effecting mapping closure of `getFzfOption`: the
mapping `m` returns the substituted value, or `none` when the closure finds no
non-empty candidate, in which case the empty string is substituted and the
name is collected (second component, in scan order). -/
def expandCollectFuel (m : List Char → Option (List Char)) :
    Nat → List Char → List Char × List (List Char)
  | 0, _ => ([], [])
  | _ + 1, [] => ([], [])
  | fuel + 1, c :: rest =>
    if c = '$' then
      match rest with
      | [] => (['$'], [])
      | _ :: _ =>
        let nw := getShellName rest
        if nw.1 = [] then
          if 0 < nw.2 then expandCollectFuel m fuel (rest.drop nw.2)
          else
            let r := expandCollectFuel m fuel rest
            ('$' :: r.1, r.2)
        else
          let r := expandCollectFuel m fuel (rest.drop nw.2)
          match m nw.1 with
          | some v => (v ++ r.1, r.2)
          | none => (r.1, nw.1 :: r.2)
    else
      let r := expandCollectFuel m fuel rest
      (c :: r.1, r.2)

/-- `os.Expand` combined with the unresolved-name collection performed by the
mapping closure inside `getFzfOption` (`fzf.go`).  First component: the
expanded string; second: the unresolved variable names in scan order. -/
def expandCollect (m : List Char → Option (List Char)) (l : List Char) :
    List Char × List (List Char) :=
  expandCollectFuel m l.length l

/-- All `$`-variable references found by one `os.Expand` scan of the string,
in scan order (realised by expanding with the never-resolving mapping, whose
collected-names component records every reference). -/
def scanDollarRefs (l : List Char) : List (List Char) :=
  (expandCollect (fun _ => none) l).2

/-- Constant `envNameFzfOption` from `fzf.go`. -/
def envNameFzfOption : String := "GIT_FZF_FZF_OPTION"

/-- Constant `envNameFzfBindOption` from `fzf.go`. -/
def envNameFzfBindOption : String := "GIT_FZF_FZF_BIND_OPTION"

/-- The reserved preview variable name, written literally as the key
`"GIT_FZF_FZF_PREVIEW_OPTION"` of the `options` map in `getFzfOption`. -/
def envNamePreviewOption : String := "GIT_FZF_FZF_PREVIEW_OPTION"

/-- Constant `defaultFzfBindOption` from `fzf.go`. -/
def defaultFzfBindOption : String :=
  "ctrl-k:kill-line,ctrl-alt-t:toggle-preview,ctrl-alt-n:preview-down,ctrl-alt-p:preview-up,ctrl-alt-v:preview-page-down"

/-- Constant `defaultFzfOption` from `fzf.go`. -/
def defaultFzfOption : String :=
  "--multi --ansi --inline-info --layout reverse --preview '$GIT_FZF_FZF_PREVIEW_OPTION' --preview-window down:70% --bind $GIT_FZF_FZF_BIND_OPTION"

/-- The `for _, opt := range options[envName]` loop body of the mapping
closure in `getFzfOption`: the first non-empty candidate, if any. -/
def firstNonEmpty : List String → Option String
  | [] => none
  | s :: rest => if s = "" then firstNonEmpty rest else some s

/-- The `options` map built inside `getFzfOption` (`fzf.go`): the reserved
preview name maps to the one-candidate list `[previewCommand]`; the bind name
maps to `[environment value, built-in default]`; a Go map lookup at any other
key yields the empty candidate list.  The environment is a total function, as
Go's `os.Getenv` returns `""` for an absent variable. -/
def fzfOptionCandidates (env : String → String) (previewCommand : String)
    (name : String) : List String :=
  if name = envNamePreviewOption then [previewCommand]
  else if name = envNameFzfBindOption then
    [env envNameFzfBindOption, defaultFzfBindOption]
  else []

/-- The mapping closure passed to `os.Expand` by `getFzfOption`, with the
unresolved case (`none`) signalled to `expandCollect` instead of mutating a
captured slice. -/
def fzfOptionMapping (env : String → String) (previewCommand : String)
    (name : List Char) : Option (List Char) :=
  (firstNonEmpty (fzfOptionCandidates env previewCommand (String.mk name))).map
    String.data

/-- `getFzfOption` from `fzf.go`.  Returns the pair Go returns: the resolved
option string and the error (`none` = `nil`).  On an unresolved variable the
result string is `""` and the error message joins the collected names with
commas. -/
def getFzfOption (env : String → String) (previewCommand : String) :
    String × Option String :=
  let fzfOption := if env envNameFzfOption = "" then defaultFzfOption
    else env envNameFzfOption
  let r := expandCollect (fzfOptionMapping env previewCommand) fzfOption.data
  if r.2 = [] then (String.mk r.1, none)
  else ("", some (envNameFzfOption ++ " has invalid environment variables: " ++
    String.intercalate "," (r.2.map String.mk)))

/-- The option string `getFzfOption` expands: the `GIT_FZF_FZF_OPTION`
environment value, or the built-in default when that is empty/unset. -/
def resolvedOptionString (env : String → String) : String :=
  if env envNameFzfOption = "" then defaultFzfOption else env envNameFzfOption

/-- The `$`-references of the chosen option string that have no non-empty
candidate value, in first-seen scan order (with one entry per reference). -/
def unresolvedNames (env : String → String) (p : String) : List (List Char) :=
  (scanDollarRefs (resolvedOptionString env).data).filter
    (fun n => (fzfOptionMapping env p n).isNone)

/-- A Go `error` value as observed by the `Run` methods: either an
`*exec.ExitError` carrying the process exit code, or any other error.  `msg`
is the string the error formats to (used only inside the wrapped message). -/
inductive GoError where
  | exitError (code : Int) (msg : String)
  | other (msg : String)
deriving DecidableEq

/-- The string a `GoError` formats to (Go's `err.Error()`). -/
def GoError.message : GoError → String
  | .exitError _ msg => msg
  | .other msg => msg

/-- The test `exitErr, ok := err.(*exec.ExitError); ok && exitErr.ExitCode() == 130`
performed by each subcommand's `Run`. -/
def GoError.isExitCode130 : GoError → Bool
  | .exitError code _ => code = 130
  | .other _ => false

/-- Observable outcome of a `Run` call: the bytes written to `ioOut`, the
returned error (`none` = `nil`), and whether execution panicked (out-of-range
index inside `writeFzfResult`; nothing is written and no error value is
returned in that case). -/
structure RunResult where
  written : String
  err : Option String
  panicked : Bool
deriving DecidableEq

/-- The two fields of `diffCli` / `logCli` / `stashCli`. -/
structure CliState where
  listOptions : List String
  fzfOption : String

/-- The command line built by `diffCli.Run` (`diff.go`). -/
def diffCommand (c : CliState) : String :=
  "git diff --color --name-status " ++ String.intercalate " " c.listOptions ++
    " | fzf " ++ c.fzfOption

/-- The command line built by `logCli.Run` (`log.go`). -/
def logCommand (c : CliState) : String :=
  "git log --color --oneline " ++ String.intercalate " " c.listOptions ++
    " | fzf " ++ c.fzfOption

/-- The command line built by `stashCli.Run` (`stash.go`); `%%` in the
`fmt.Sprintf` format renders as a literal `%`. -/
def stashCommand (c : CliState) : String :=
  "git stash list --format='%gd %gs' " ++ String.intercalate " " c.listOptions ++
    " | fzf " ++ c.fzfOption

/-- The shared tail of the three `Run` methods, applied to the outcome of the
process executor `runCommandWithFzf` (captured stdout plus optional error):
an exit-status-130 error returns `nil` with nothing written; any other error
returns the wrapping error `failed to run the command <command>: <err>` with
nothing written; on success `writeFzfResult` runs with the given column. -/
def runCli (command : String) (column : Nat) (stdout : String)
    (execErr : Option GoError) : RunResult :=
  match execErr with
  | some e =>
    if e.isExitCode130 then ⟨"", none, false⟩
    else ⟨"", some ("failed to run the command " ++ command ++ ": " ++ e.message),
      false⟩
  | none =>
    match writeFzfResult stdout column with
    | some s => ⟨s, none, false⟩
    | none => ⟨"", none, true⟩

/-- `diffCli.Run`: field index 1 (the path column of `--name-status`). -/
def diffCliRun (c : CliState) (stdout : String) (execErr : Option GoError) :
    RunResult :=
  runCli (diffCommand c) 1 stdout execErr

/-- `logCli.Run`: field index 0 (the commit hash column). -/
def logCliRun (c : CliState) (stdout : String) (execErr : Option GoError) :
    RunResult :=
  runCli (logCommand c) 0 stdout execErr

/-- `stashCli.Run`: field index 0 (the stash ref column). -/
def stashCliRun (c : CliState) (stdout : String) (execErr : Option GoError) :
    RunResult :=
  runCli (stashCommand c) 0 stdout execErr

/-- One node of a parsed Go template restricted to the fragment this
repository uses: literal text interleaved with `{{.key}}` field actions.
(The repository's templates are `git diff --color {{.objectRange}} {{.path}}`,
`git show --color {{.objectRange}} {{.path}}` and
`git stash show --color -p '{{.stash}}'`.) -/
inductive TmplElem where
  | lit (s : String)
  | field (key : String)
deriving DecidableEq

/-- Error produced by executing a template under `missingkey=error`. -/
inductive TemplateError where
  | missingKey (key : String)
deriving DecidableEq

/-- The escaping `html/template` applies to an interpolated value in plain
text context (`<`, `>`, `&`, `'`, `"` become entities). -/
def htmlEscapeChar (c : Char) : List Char :=
  if c = '<' then "&lt;".data
  else if c = '>' then "&gt;".data
  else if c = '&' then "&amp;".data
  else if c = '\'' then "&#39;".data
  else if c = '"' then "&#34;".data
  else [c]

/-- Escape a whole interpolated value. -/
def htmlEscape (s : String) : List Char :=
  s.data.foldr (fun c acc => htmlEscapeChar c ++ acc) []

/-- Sequential execution of a parsed template against a context map under the
`missingkey=error` option (as set by `commandFromTemplate`): the first field
whose key is absent from the context aborts execution with that key; literal
text is copied and present values are escaped and copied. -/
def execTemplate (data : String → Option String) :
    List TmplElem → Except TemplateError (List Char)
  | [] => .ok []
  | .lit s :: rest =>
    match execTemplate data rest with
    | .ok tail => .ok (s.data ++ tail)
    | .error e => .error e
  | .field k :: rest =>
    match data k with
    | none => .error (.missingKey k)
    | some v =>
      match execTemplate data rest with
      | .ok tail => .ok (htmlEscape v ++ tail)
      | .error e => .error e

/-- `commandFromTemplate` from `fzf.go`, over the parsed form of the template
string (`template.New(name).Option("missingkey=error").Parse(command)`
followed by `Execute` on a `strings.Builder`; the `name` argument is used by
Go only for diagnostics).  On an execution error Go returns the pair
`("", err)`, discarding the partially filled builder. -/
def commandFromTemplate (name : String) (command : List TmplElem)
    (data : String → Option String) : String × Option TemplateError :=
  match execTemplate data command with
  | .error e => ("", some e)
  | .ok out => (String.mk out, none)

example : writeFzfResult "M\tREADME.md\nA\tLICENSE" 1 = some "README.md\nLICENSE\n" := by
  decide

example : writeFzfResult "abc Commit message1\nxyz Commit message2\n" 0 = some "abc\nxyz\n" := by
  decide

example : writeFzfResult "M\tREADME.md\nA" 1 = none := by decide

example : writeFzfResult "" 0 = none := by decide

theorem expandCollectFuel_irrel (m : List Char → Option (List Char)) :
    ∀ f1 f2 l, l.length ≤ f1 → l.length ≤ f2 →
      expandCollectFuel m f1 l = expandCollectFuel m f2 l := by
  intro f1
  induction f1 with
  | zero =>
    intro f2 l h1 _
    have hl : l = [] := List.length_eq_zero.mp (Nat.le_zero.mp h1)
    subst hl
    cases f2 <;> rfl
  | succ a ih =>
    intro f2 l h1 h2
    cases l with
    | nil => cases f2 <;> rfl
    | cons c rest =>
      cases f2 with
      | zero => simp at h2
      | succ b =>
        simp only [List.length_cons] at h1 h2
        have h1r : rest.length ≤ a := by omega
        have h2r : rest.length ≤ b := by omega
        simp only [expandCollectFuel]
        by_cases hc : c = '$'
        · subst hc
          simp only [reduceIte]
          cases rest with
          | nil => rfl
          | cons d rest2 =>
            have hdrop : ∀ w : Nat, ((d :: rest2).drop w).length ≤ rest2.length + 1 := by
              intro w
              simp only [List.length_drop, List.length_cons]
              omega
            have h1d : rest2.length + 1 ≤ a := by simpa using h1r
            have h2d : rest2.length + 1 ≤ b := by simpa using h2r
            by_cases hn : (getShellName (d :: rest2)).1 = []
            · by_cases hw : 0 < (getShellName (d :: rest2)).2
              · simp only [hn, reduceIte, if_pos hw]
                exact ih b _ (le_trans (hdrop _) h1d) (le_trans (hdrop _) h2d)
              · simp only [hn, reduceIte, if_neg hw]
                rw [ih b (d :: rest2) h1d h2d]
            · simp only [if_neg hn]
              rw [ih b ((d :: rest2).drop (getShellName (d :: rest2)).2)
                    (le_trans (hdrop _) h1d) (le_trans (hdrop _) h2d)]
        · simp only [if_neg hc]
          rw [ih b rest h1r h2r]

theorem expandCollect_nil (m : List Char → Option (List Char)) :
    expandCollect m [] = ([], []) := rfl

theorem expandCollect_cons_of_ne (m : List Char → Option (List Char)) {c : Char}
    (rest : List Char) (hc : c ≠ '$') :
    expandCollect m (c :: rest) =
      (c :: (expandCollect m rest).1, (expandCollect m rest).2) := by
  simp only [expandCollect, List.length_cons, expandCollectFuel, if_neg hc]

theorem expandCollect_dollar_end (m : List Char → Option (List Char)) :
    expandCollect m ['$'] = (['$'], []) := rfl

theorem expandCollect_dollar (m : List Char → Option (List Char)) (d : Char)
    (rest2 : List Char) :
    expandCollect m ('$' :: d :: rest2) =
      (if (getShellName (d :: rest2)).1 = [] then
        if 0 < (getShellName (d :: rest2)).2 then
          expandCollect m ((d :: rest2).drop (getShellName (d :: rest2)).2)
        else
          ('$' :: (expandCollect m (d :: rest2)).1, (expandCollect m (d :: rest2)).2)
      else
        match m (getShellName (d :: rest2)).1 with
        | some v =>
          (v ++ (expandCollect m ((d :: rest2).drop (getShellName (d :: rest2)).2)).1,
           (expandCollect m ((d :: rest2).drop (getShellName (d :: rest2)).2)).2)
        | none =>
          ((expandCollect m ((d :: rest2).drop (getShellName (d :: rest2)).2)).1,
           (getShellName (d :: rest2)).1 ::
             (expandCollect m ((d :: rest2).drop (getShellName (d :: rest2)).2)).2)) := by
  have key : ∀ w : Nat,
      expandCollectFuel m (rest2.length + 1) ((d :: rest2).drop w) =
        expandCollect m ((d :: rest2).drop w) := by
    intro w
    refine expandCollectFuel_irrel m _ _ _ ?_ (le_refl _)
    simp only [List.length_drop, List.length_cons]
    omega
  have key2 : expandCollectFuel m (rest2.length + 1) (d :: rest2) =
      expandCollect m (d :: rest2) := rfl
  simp only [expandCollect, List.length_cons, expandCollectFuel, reduceIte, key, key2]

theorem getShellName_alnum (name rest : List Char) (hne : name ≠ [])
    (hall : ∀ c ∈ name, isAlphaNum c = true)
    (hhead : isShellSpecialVar (name.headD ' ') = false)
    (hrest : isAlphaNum (rest.headD ' ') = false) :
    getShellName (name ++ rest) = (name, name.length) := by
  cases name with
  | nil => exact absurd rfl hne
  | cons n0 ntl =>
    have h0 : isAlphaNum n0 = true := hall n0 (by simp)
    have h0s : isShellSpecialVar n0 = false := hhead
    have h0b : n0 ≠ '{' := by
      intro hcontra
      rw [hcontra] at h0
      simp [isAlphaNum, Char.le_def] at h0
    have htw : List.takeWhile isAlphaNum (n0 :: (ntl ++ rest)) = n0 :: ntl := by
      rw [show n0 :: (ntl ++ rest) = (n0 :: ntl) ++ rest from rfl,
        List.takeWhile_append_of_pos hall]
      cases rest with
      | nil => simp
      | cons r0 rtl =>
        rw [List.takeWhile_cons, show isAlphaNum r0 = false from hrest]
        simp
    rw [show (n0 :: ntl) ++ rest = n0 :: (ntl ++ rest) from rfl]
    simp only [getShellName, if_neg h0b, h0s, Bool.false_eq_true, if_false]
    rw [htw]

theorem expandCollect_dollar_name (m : List Char → Option (List Char))
    (name rest : List Char) (hne : name ≠ [])
    (hall : ∀ c ∈ name, isAlphaNum c = true)
    (hhead : isShellSpecialVar (name.headD ' ') = false)
    (hrest : isAlphaNum (rest.headD ' ') = false) :
    expandCollect m ('$' :: (name ++ rest)) =
      match m name with
      | some v => (v ++ (expandCollect m rest).1, (expandCollect m rest).2)
      | none => ((expandCollect m rest).1, name :: (expandCollect m rest).2) := by
  have hgs := getShellName_alnum name rest hne hall hhead hrest
  cases name with
  | nil => exact absurd rfl hne
  | cons n0 ntl =>
    rw [show (n0 :: ntl) ++ rest = n0 :: (ntl ++ rest) from rfl] at hgs ⊢
    rw [expandCollect_dollar m n0 (ntl ++ rest), hgs]
    have hdrop : (n0 :: (ntl ++ rest)).drop (n0 :: ntl).length = rest := by
      rw [show n0 :: (ntl ++ rest) = (n0 :: ntl) ++ rest from rfl]
      exact List.drop_left' rfl
    simp only [hdrop, reduceIte, if_neg (List.cons_ne_nil n0 ntl)]

theorem expandCollect_lit_append (m : List Char → Option (List Char)) :
    ∀ l r : List Char, (∀ c ∈ l, c ≠ '$') →
      expandCollect m (l ++ r) =
        (l ++ (expandCollect m r).1, (expandCollect m r).2) := by
  intro l
  induction l with
  | nil =>
    intro r _
    simp
  | cons c ltl ih =>
    intro r h
    have hc : c ≠ '$' := h c (by simp)
    rw [List.cons_append, expandCollect_cons_of_ne m _ hc,
      ih r (fun x hx => h x (by simp [hx]))]
    simp

/-- The names collected by the expansion are exactly the scanned references
whose mapping fails, in first-seen scan order: the scan continues past an
unresolved variable and collects them all in one pass. -/
theorem expandCollect_snd_eq_filter (m : List Char → Option (List Char)) :
    ∀ l : List Char,
      (expandCollect m l).2 = (scanDollarRefs l).filter (fun n => (m n).isNone) := by
  suffices H : ∀ b : Nat, ∀ l : List Char, l.length ≤ b →
      (expandCollect m l).2 = (scanDollarRefs l).filter (fun n => (m n).isNone) by
    exact fun l => H l.length l (le_refl _)
  intro b
  induction b with
  | zero =>
    intro l hl
    have : l = [] := List.length_eq_zero.mp (Nat.le_zero.mp hl)
    subst this
    rfl
  | succ k ih =>
    intro l hl
    cases l with
    | nil => rfl
    | cons c rest =>
      simp only [List.length_cons] at hl
      have hrl : rest.length ≤ k := by omega
      by_cases hc : c = '$'
      · subst hc
        cases rest with
        | nil => rfl
        | cons d rest2 =>
          have hd : ∀ w : Nat, ((d :: rest2).drop w).length ≤ k := by
            intro w
            simp only [List.length_drop, List.length_cons]
            simp only [List.length_cons] at hrl
            omega
          rw [show scanDollarRefs ('$' :: d :: rest2) =
              (expandCollect (fun _ => none) ('$' :: d :: rest2)).2 from rfl]
          rw [expandCollect_dollar m d rest2, expandCollect_dollar (fun _ => none) d rest2]
          by_cases hn : (getShellName (d :: rest2)).1 = []
          · by_cases hw : 0 < (getShellName (d :: rest2)).2
            · simp only [hn, reduceIte, if_pos hw]
              exact ih _ (hd _)
            · simp only [hn, reduceIte, if_neg hw]
              exact ih _ hrl
          · simp only [if_neg hn]
            rcases hm : m (getShellName (d :: rest2)).1 with _ | v
            · simp only [List.filter_cons, hm, Option.isNone_none, if_pos rfl]
              rw [ih _ (hd _)]
              rfl
            · simp only [List.filter_cons, hm, Option.isNone_some]
              rw [ih _ (hd _)]
              rfl
      · rw [expandCollect_cons_of_ne m rest hc,
          show scanDollarRefs (c :: rest) =
            (expandCollect (fun _ => none) (c :: rest)).2 from rfl,
          expandCollect_cons_of_ne (fun _ => none) rest hc]
        exact ih rest hrl

example :
    getFzfOption (fun _ => "") "git diff {{1}}" =
      ("--multi --ansi --inline-info --layout reverse --preview 'git diff {{1}}' --preview-window down:70% --bind " ++ defaultFzfBindOption, none) := by
  decide

example :
    getFzfOption
      (fun n => if n = "GIT_FZF_FZF_OPTION" then "--preview '$GIT_FZF_FZF_PREVIEW_OPTION' --bind $GIT_FZF_FZF_BIND_OPTION"
        else if n = "GIT_FZF_FZF_BIND_OPTION" then "ctrl-k:kill-line" else "")
      "git diff {{1}}" =
      ("--preview 'git diff {{1}}' --bind ctrl-k:kill-line", none) := by
  decide

example :
    getFzfOption
      (fun n => if n = "GIT_FZF_FZF_OPTION" then "--inline-info $UNKNOWN_ENV_NAME"
        else if n = "GIT_FZF_FZF_BIND_OPTION" then "unused" else "")
      "unused preview command" =
      ("", some "GIT_FZF_FZF_OPTION has invalid environment variables: UNKNOWN_ENV_NAME") := by
  decide

example :
    getFzfOption (fun n => if n = "GIT_FZF_FZF_OPTION" then "$UNKNOWN_ENV1, $UNKNOWN_ENV2" else "")
      "p" =
      ("", some "GIT_FZF_FZF_OPTION has invalid environment variables: UNKNOWN_ENV1,UNKNOWN_ENV2") := by
  decide

/-- The reserved preview variable resolves to the `previewCommand` argument of
the resolver whenever that argument is non-empty; the environment plays no
part in it. -/
theorem fzfOptionMapping_preview (env : String → String) (p : String) (hp : p ≠ "") :
    fzfOptionMapping env p "GIT_FZF_FZF_PREVIEW_OPTION".data = some p.data := by
  simp only [fzfOptionMapping, fzfOptionCandidates]
  rw [show String.mk "GIT_FZF_FZF_PREVIEW_OPTION".data = envNamePreviewOption from rfl,
    if_pos rfl]
  simp only [firstNonEmpty, if_neg hp]
  rfl

/-- With an empty (equivalently, unset) `GIT_FZF_FZF_BIND_OPTION` environment
value, a reference to the bind variable resolves to the built-in default bind
option, because substitution takes the first non-empty candidate. -/
theorem fzfOptionMapping_bind_default (env : String → String) (p : String)
    (hb : env envNameFzfBindOption = "") :
    fzfOptionMapping env p "GIT_FZF_FZF_BIND_OPTION".data =
      some defaultFzfBindOption.data := by
  simp only [fzfOptionMapping, fzfOptionCandidates]
  rw [show String.mk "GIT_FZF_FZF_BIND_OPTION".data = envNameFzfBindOption from rfl,
    if_neg (by decide), if_pos rfl]
  rw [hb]
  decide

/-- `getFzfOption` reads the environment only at `GIT_FZF_FZF_OPTION` and
`GIT_FZF_FZF_BIND_OPTION`; two environments agreeing there produce identical
results. -/
theorem getFzfOption_env_congr (env1 env2 : String → String) (p : String)
    (hopt : env1 envNameFzfOption = env2 envNameFzfOption)
    (hbind : env1 envNameFzfBindOption = env2 envNameFzfBindOption) :
    getFzfOption env1 p = getFzfOption env2 p := by
  have hmap : fzfOptionMapping env1 p = fzfOptionMapping env2 p := by
    funext name
    simp only [fzfOptionMapping, fzfOptionCandidates, hbind]
  simp only [getFzfOption, hopt, hmap]

theorem getFzfOption_default_shape (env : String → String) (p : String)
    (h1 : env envNameFzfOption = "") (h2 : env envNameFzfBindOption = "")
    (hp : p ≠ "") :
    getFzfOption env p =
      ("--multi --ansi --inline-info --layout reverse --preview '" ++ p ++
        "' --preview-window down:70% --bind " ++ defaultFzfBindOption, none) := by
  have hdec : defaultFzfOption.data =
      "--multi --ansi --inline-info --layout reverse --preview '".data ++
        ('$' :: ("GIT_FZF_FZF_PREVIEW_OPTION".data ++
          ("' --preview-window down:70% --bind ".data ++
            ('$' :: ("GIT_FZF_FZF_BIND_OPTION".data ++ ([] : List Char)))))) := by
    decide
  have e1 : expandCollect (fzfOptionMapping env p)
      ('$' :: ("GIT_FZF_FZF_BIND_OPTION".data ++ ([] : List Char))) =
      (defaultFzfBindOption.data, []) := by
    rw [expandCollect_dollar_name _ _ _ (by decide) (by decide) (by decide) (by decide),
      fzfOptionMapping_bind_default env p h2]
    simp [expandCollect_nil]
  have e2 : expandCollect (fzfOptionMapping env p)
      ("' --preview-window down:70% --bind ".data ++
        ('$' :: ("GIT_FZF_FZF_BIND_OPTION".data ++ ([] : List Char)))) =
      ("' --preview-window down:70% --bind ".data ++ defaultFzfBindOption.data, []) := by
    rw [expandCollect_lit_append _ _ _ (by decide), e1]
  have e3 : expandCollect (fzfOptionMapping env p)
      ('$' :: ("GIT_FZF_FZF_PREVIEW_OPTION".data ++
        ("' --preview-window down:70% --bind ".data ++
          ('$' :: ("GIT_FZF_FZF_BIND_OPTION".data ++ ([] : List Char)))))) =
      (p.data ++ ("' --preview-window down:70% --bind ".data ++
        defaultFzfBindOption.data), []) := by
    rw [expandCollect_dollar_name _ _ _ (by decide) (by decide) (by decide) (by decide),
      fzfOptionMapping_preview env p hp, e2]
  have e4 : expandCollect (fzfOptionMapping env p) defaultFzfOption.data =
      ("--multi --ansi --inline-info --layout reverse --preview '".data ++
        (p.data ++ ("' --preview-window down:70% --bind ".data ++
          defaultFzfBindOption.data)), []) := by
    rw [hdec, expandCollect_lit_append _ _ _ (by decide), e3]
  simp only [getFzfOption, h1, if_true, e4, reduceIte, Prod.mk.injEq]
  refine ⟨?_, trivial⟩
  apply String.ext
  simp [String.data_append]

theorem getFzfOption_unresolved (env : String → String) (p : String)
    (hne : unresolvedNames env p ≠ []) :
    getFzfOption env p =
      ("", some (envNameFzfOption ++ " has invalid environment variables: " ++
        String.intercalate "," ((unresolvedNames env p).map String.mk))) := by
  have hkey :
      (expandCollect (fzfOptionMapping env p) (resolvedOptionString env).data).2 =
        unresolvedNames env p :=
    expandCollect_snd_eq_filter _ _
  simp only [getFzfOption]
  rw [show (if env envNameFzfOption = "" then defaultFzfOption
      else env envNameFzfOption) = resolvedOptionString env from rfl]
  rw [hkey, if_neg hne]

example :
    diffCliRun ⟨["origin/master"], "--inline-info"⟩ "M\tREADME.md\nA\tLICENSE" none =
      ⟨"README.md\nLICENSE\n", none, false⟩ := by
  decide

example :
    logCliRun ⟨["origin/master"], "--inline-info"⟩
      "abc Commit message1\nxyz Commit message2\n" none =
      ⟨"abc\nxyz\n", none, false⟩ := by
  decide

theorem execTemplate_missing (data : String → Option String) :
    ∀ command : List TmplElem,
      (∃ k, TmplElem.field k ∈ command ∧ data k = none) →
      ∃ k, data k = none ∧ execTemplate data command = .error (.missingKey k) := by
  intro command
  induction command with
  | nil =>
    rintro ⟨k, hk, _⟩
    exact absurd hk (List.not_mem_nil _)
  | cons e rest ih =>
    rintro ⟨k, hk, hd⟩
    cases e with
    | lit s =>
      have hk2 : TmplElem.field k ∈ rest := by
        rcases List.mem_cons.mp hk with h | h
        · exact absurd h (by simp)
        · exact h
      obtain ⟨k2, hk2d, hk2e⟩ := ih ⟨k, hk2, hd⟩
      refine ⟨k2, hk2d, ?_⟩
      simp only [execTemplate, hk2e]
    | field k0 =>
      rcases hd0 : data k0 with _ | v
      · exact ⟨k0, hd0, by simp only [execTemplate, hd0]⟩
      · have hk2 : TmplElem.field k ∈ rest := by
          rcases List.mem_cons.mp hk with h | h
          · have : k = k0 := by
              injection h
            subst this
            rw [hd0] at hd
            exact absurd hd (by simp)
          · exact h
        obtain ⟨k2, hk2d, hk2e⟩ := ih ⟨k, hk2, hd⟩
        refine ⟨k2, hk2d, ?_⟩
        simp only [execTemplate, hd0, hk2e]

theorem optMap_eq_none_of_mem (f : α → Option β) :
    ∀ l : List α, ∀ a ∈ l, f a = none → optMap f l = none := by
  intro l
  induction l with
  | nil =>
    intro a ha
    exact absurd ha (List.not_mem_nil a)
  | cons x rest ih =>
    intro a ha hfa
    rcases List.mem_cons.mp ha with h | h
    · subst h
      simp only [optMap, hfa]
    · simp only [optMap, ih a h hfa]
      cases f x <;> rfl

theorem optMap_eq_map (f : α → Option β) (g : α → β) :
    ∀ l : List α, (∀ a ∈ l, f a = some (g a)) → optMap f l = some (l.map g) := by
  intro l
  induction l with
  | nil =>
    intro _
    rfl
  | cons x rest ih =>
    intro h
    simp only [optMap, h x (by simp), ih (fun a ha => h a (by simp [ha])), List.map_cons]

theorem writeFzfResult_short_line (out : String) (column : Nat)
    (h : ∃ line ∈ splitOnChar '\n' (trimSpace out.data),
      (goFields line).length < column + 1) :
    writeFzfResult out column = none := by
  obtain ⟨line, hmem, hlen⟩ := h
  have hf : ((goFields line)[column]?).map trimSpace = none := by
    rw [List.getElem?_eq_none (by omega)]
    rfl
  have hnone : optMap (fun line => ((goFields line)[column]?).map trimSpace)
      (splitOnChar '\n' (trimSpace out.data)) = none :=
    optMap_eq_none_of_mem _ _ line hmem hf
  simp only [writeFzfResult, hnone]

theorem writeFzfResult_success_shape (out : String) (column : Nat)
    (h : ∀ line ∈ splitOnChar '\n' (trimSpace out.data),
      column < (goFields line).length) :
    writeFzfResult out column =
      some (String.mk (joinChar '\n'
        ((splitOnChar '\n' (trimSpace out.data)).map
          (fun line => trimSpace ((goFields line).getD column []))) ++ ['\n'])) := by
  have hmap : optMap (fun line => ((goFields line)[column]?).map trimSpace)
      (splitOnChar '\n' (trimSpace out.data)) =
      some ((splitOnChar '\n' (trimSpace out.data)).map
        (fun line => trimSpace ((goFields line).getD column []))) := by
    refine optMap_eq_map _ _ _ ?_
    intro line hline
    have hlt := h line hline
    rw [List.getElem?_eq_getElem hlt]
    rw [List.getD_eq_getElem?_getD, List.getElem?_eq_getElem hlt]
    rfl
  simp only [writeFzfResult, hmap]

/-- C1, counterexample.  The claim states that on a line with fewer
whitespace-separated fields than `fieldIndex + 1` the result extractor
`writeFzfResult` fails with a reportable `OutputParseError` and never panics.
In the code, `fields[column]` is an unchecked slice index, so the raw output
`"M\tREADME.md\nA"` at field index 1 (the second line has one field) makes Go
panic with an index-out-of-range runtime error — modelled by `none`, which is
neither a written result nor a returned error value.  No error-return path
for malformed lines exists in `writeFzfResult`. -/
theorem claimC1_counterexample : writeFzfResult "M\tREADME.md\nA" 1 = none := by
  decide

/-- C1, amended.  If any line of the (trimmed) raw finder output has fewer
whitespace-separated fields than `fieldIndex + 1`, `writeFzfResult` panics
with an index-out-of-range runtime error (modelled `none`): it crashes rather
than returning a reportable error. -/
theorem claimC1_amended (out : String) (column : Nat)
    (h : ∃ line ∈ splitOnChar '\n' (trimSpace out.data),
      (goFields line).length < column + 1) :
    writeFzfResult out column = none :=
  writeFzfResult_short_line out column h

/-- C1, amended, witness at the concrete raw output `"M\tREADME.md\nA"` with
field index 1. -/
theorem claimC1_amended_witness :
    (∃ line ∈ splitOnChar '\n' (trimSpace ("M\tREADME.md\nA").data),
      (goFields line).length < 1 + 1) ∧
    writeFzfResult "M\tREADME.md\nA" 1 = none :=
  ⟨by decide, claimC1_amended "M\tREADME.md\nA" 1 (by decide)⟩

/-- C2.  Whenever the executed pipeline terminates with an
`*exec.ExitError` of exit status 130 (user cancellation), each subcommand's
`Run` returns success (`nil` error), writes nothing to the output writer, and
does not panic — regardless of the captured stdout content and of the cli
state. -/
theorem claimC2 (c : CliState) (stdout msg : String) :
    diffCliRun c stdout (some (.exitError 130 msg)) = ⟨"", none, false⟩ ∧
    logCliRun c stdout (some (.exitError 130 msg)) = ⟨"", none, false⟩ ∧
    stashCliRun c stdout (some (.exitError 130 msg)) = ⟨"", none, false⟩ := by
  refine ⟨?_, ?_, ?_⟩ <;> rfl

/-- C3.  If the expanded option string (from `GIT_FZF_FZF_OPTION`, or the
built-in default) references `$VARNAME` variables with no non-empty candidate
value, `getFzfOption` returns the empty string together with a single error
listing all unresolved names comma-joined in first-seen scan order (the scan
continues past each unresolved variable, so one pass collects them all — this
is `expandCollect_snd_eq_filter`); in particular a string referencing exactly
one unknown name yields an error listing exactly that name. -/
theorem claimC3 (env : String → String) (p : String) :
    (unresolvedNames env p ≠ [] →
      getFzfOption env p =
        ("", some (envNameFzfOption ++ " has invalid environment variables: " ++
          String.intercalate "," ((unresolvedNames env p).map String.mk)))) ∧
    (∀ n : List Char, unresolvedNames env p = [n] →
      getFzfOption env p =
        ("", some (envNameFzfOption ++ " has invalid environment variables: " ++
          String.mk n))) := by
  constructor
  · exact getFzfOption_unresolved env p
  · intro n hn
    have h := getFzfOption_unresolved env p (by simp [hn])
    rw [hn] at h
    exact h

/-- C3, witness: `GIT_FZF_FZF_OPTION` set to
`"--inline-info $UNKNOWN_ENV_NAME"` gives exactly one unresolved reference
and the error lists exactly that name. -/
theorem claimC3_witness :
    unresolvedNames
      (fun n => if n = "GIT_FZF_FZF_OPTION" then "--inline-info $UNKNOWN_ENV_NAME" else "")
      "unused preview command" = ["UNKNOWN_ENV_NAME".data] ∧
    getFzfOption
      (fun n => if n = "GIT_FZF_FZF_OPTION" then "--inline-info $UNKNOWN_ENV_NAME" else "")
      "unused preview command" =
      ("", some "GIT_FZF_FZF_OPTION has invalid environment variables: UNKNOWN_ENV_NAME") := by
  refine ⟨by decide, ?_⟩
  have h := (claimC3
    (fun n => if n = "GIT_FZF_FZF_OPTION" then "--inline-info $UNKNOWN_ENV_NAME" else "")
    "unused preview command").2 "UNKNOWN_ENV_NAME".data (by decide)
  rw [h]
  decide

/-- C4.  For every pair of environments that differ at most in the value of
`GIT_FZF_FZF_PREVIEW_OPTION`, `getFzfOption` returns identical results (the
environment cannot override the reserved preview variable), and a reference
to that variable resolves to the `previewCommand` argument supplied by the
resolver whenever it is non-empty. -/
theorem claimC4 (env1 env2 : String → String) (p : String)
    (h : ∀ n, n ≠ envNamePreviewOption → env1 n = env2 n) :
    getFzfOption env1 p = getFzfOption env2 p ∧
    (p ≠ "" →
      fzfOptionMapping env1 p envNamePreviewOption.data = some p.data) := by
  constructor
  · exact getFzfOption_env_congr env1 env2 p (h _ (by decide)) (h _ (by decide))
  · intro hp
    exact fzfOptionMapping_preview env1 p hp

/-- C4, witness: an environment setting `GIT_FZF_FZF_PREVIEW_OPTION` to
`"HIJACKED"` produces the same result as the empty environment. -/
theorem claimC4_witness :
    (∀ n, n ≠ envNamePreviewOption →
      (fun _ : String => "") n =
        (fun x => if x = envNamePreviewOption then "HIJACKED" else "") n) ∧
    getFzfOption (fun _ => "") "git diff {{1}}" =
      getFzfOption (fun x => if x = envNamePreviewOption then "HIJACKED" else "")
        "git diff {{1}}" := by
  have hagree : ∀ n, n ≠ envNamePreviewOption →
      (fun _ : String => "") n =
        (fun x => if x = envNamePreviewOption then "HIJACKED" else "") n := by
    intro n hn
    simp [hn]
  exact ⟨hagree, (claimC4 _ _ "git diff {{1}}" hagree).1⟩

/-- C5.  With `GIT_FZF_FZF_OPTION` and `GIT_FZF_FZF_BIND_OPTION` unset (or
empty) and a non-empty `previewCommand`, `getFzfOption` succeeds and returns
exactly the built-in default option string with the preview placeholder
replaced by `previewCommand` and the bind placeholder replaced by the
built-in default bind option. -/
theorem claimC5 (env : String → String) (p : String)
    (h1 : env envNameFzfOption = "") (h2 : env envNameFzfBindOption = "")
    (hp : p ≠ "") :
    getFzfOption env p =
      ("--multi --ansi --inline-info --layout reverse --preview '" ++ p ++
        "' --preview-window down:70% --bind " ++ defaultFzfBindOption, none) :=
  getFzfOption_default_shape env p h1 h2 hp

/-- C5, witness at the empty environment and preview command
`"git diff {{1}}"` (the repository's own test vector). -/
theorem claimC5_witness :
    getFzfOption (fun _ => "") "git diff {{1}}" =
      ("--multi --ansi --inline-info --layout reverse --preview 'git diff {{1}}' --preview-window down:70% --bind " ++
        defaultFzfBindOption, none) := by
  have h := claimC5 (fun _ => "") "git diff {{1}}" rfl rfl (by decide)
  rw [h]
  decide

/-- C6.  For every template (in the parsed fragment used by this repository)
and context map, if the template references a placeholder key absent from the
context, `commandFromTemplate` returns the empty string together with the
missing-key error: the missing placeholder is never rendered as an empty
value and no partially substituted text is returned. -/
theorem claimC6 (name : String) (command : List TmplElem)
    (data : String → Option String)
    (h : ∃ k, TmplElem.field k ∈ command ∧ data k = none) :
    ∃ k, data k = none ∧
      commandFromTemplate name command data = ("", some (.missingKey k)) := by
  obtain ⟨k, hd, he⟩ := execTemplate_missing data command h
  exact ⟨k, hd, by simp only [commandFromTemplate, he]⟩

/-- C6, witness: the template `wrong {{.name}}` against a context with no
entries fails with a missing-key error and the empty string. -/
theorem claimC6_witness :
    ∃ k, (fun _ : String => (none : Option String)) k = none ∧
      commandFromTemplate "template" [TmplElem.lit "wrong ", TmplElem.field "name"]
        (fun _ => none) = ("", some (.missingKey k)) :=
  claimC6 "template" [TmplElem.lit "wrong ", TmplElem.field "name"] (fun _ => none)
    ⟨"name", by decide, rfl⟩

/-- C7.  Whenever the executed pipeline fails with any error other than an
exit status of exactly 130, each subcommand's `Run` returns an error wrapping
both the literal command line that was run and the underlying process error,
and nothing is written to the output writer. -/
theorem claimC7 (c : CliState) (stdout : String) (e : GoError)
    (h : e.isExitCode130 = false) :
    diffCliRun c stdout (some e) =
      ⟨"", some ("failed to run the command " ++ diffCommand c ++ ": " ++
        e.message), false⟩ ∧
    logCliRun c stdout (some e) =
      ⟨"", some ("failed to run the command " ++ logCommand c ++ ": " ++
        e.message), false⟩ ∧
    stashCliRun c stdout (some e) =
      ⟨"", some ("failed to run the command " ++ stashCommand c ++ ": " ++
        e.message), false⟩ := by
  refine ⟨?_, ?_, ?_⟩ <;>
    simp [diffCliRun, logCliRun, stashCliRun, runCli, h]

/-- C7, witness: a non-`ExitError` failure of the diff pipeline yields the
wrapping error with the exact command line and nothing written. -/
theorem claimC7_witness :
    (GoError.other "spawn failed").isExitCode130 = false ∧
    diffCliRun ⟨["origin/master"], "--inline-info"⟩ "ignored stdout"
      (some (.other "spawn failed")) =
      ⟨"", some "failed to run the command git diff --color --name-status origin/master | fzf --inline-info: spawn failed",
        false⟩ := by
  refine ⟨by decide, ?_⟩
  have h := (claimC7 ⟨["origin/master"], "--inline-info"⟩ "ignored stdout"
    (.other "spawn failed") (by decide)).1
  rw [h]
  decide

/-- C8.  For raw finder output in which, after trimming the whole blob, every
line has at least `fieldIndex + 1` whitespace-separated fields,
`writeFzfResult` writes exactly the newline-join of the trimmed field at
`fieldIndex` of each line followed by one trailing newline. -/
theorem claimC8 (out : String) (column : Nat)
    (h : ∀ line ∈ splitOnChar '\n' (trimSpace out.data),
      column < (goFields line).length) :
    writeFzfResult out column =
      some (String.mk (joinChar '\n'
        ((splitOnChar '\n' (trimSpace out.data)).map
          (fun line => trimSpace ((goFields line).getD column []))) ++ ['\n'])) :=
  writeFzfResult_success_shape out column h

/-- C8, witness: raw input `"M\tREADME.md\nA\tLICENSE"` with field index 1
yields exactly `"README.md\nLICENSE\n"`. -/
theorem claimC8_witness :
    writeFzfResult "M\tREADME.md\nA\tLICENSE" 1 = some "README.md\nLICENSE\n" := by
  have h := claimC8 "M\tREADME.md\nA\tLICENSE" 1 (by decide)
  rw [h]
  decide

/-- C9.  For raw finder output that is empty or consists only of whitespace,
the trimmed blob splits into exactly one empty line, whose field list is
empty, so the field access is out of bounds at every index (including 0):
`writeFzfResult` has no defined result (it panics, modelled `none`) on empty
successful finder output. -/
theorem claimC9 (out : String) (column : Nat) (h : out.data.all goIsSpace = true) :
    splitOnChar '\n' (trimSpace out.data) = [[]] ∧
    goFields ([] : List Char) = [] ∧
    writeFzfResult out column = none := by
  have ht : trimSpace out.data = [] := by
    have h1 : out.data.dropWhile goIsSpace = [] :=
      List.dropWhile_eq_nil_iff.mpr (List.all_eq_true.mp h)
    simp [trimSpace, h1]
  refine ⟨by rw [ht]; rfl, rfl, ?_⟩
  simp only [writeFzfResult, ht]
  rfl

/-- C9, witness at the whitespace-only raw output `"  \n "` with field
index 0. -/
theorem claimC9_witness :
    ("  \n " : String).data.all goIsSpace = true ∧
    writeFzfResult "  \n " 0 = none :=
  ⟨by decide, (claimC9 "  \n " 0 (by decide)).2.2⟩

/-- C10.  Setting `GIT_FZF_FZF_BIND_OPTION` to the empty string is
indistinguishable from leaving it unset: any two environments that are empty
at that name and agree elsewhere give identical `getFzfOption` results, and a
`$GIT_FZF_FZF_BIND_OPTION` reference then resolves to the built-in default
bind option, because substitution takes the first non-empty candidate and
skips empty ones. -/
theorem claimC10 (env1 env2 : String → String) (p : String)
    (h1 : env1 envNameFzfBindOption = "") (h2 : env2 envNameFzfBindOption = "")
    (h : ∀ n, n ≠ envNameFzfBindOption → env1 n = env2 n) :
    getFzfOption env1 p = getFzfOption env2 p ∧
    fzfOptionMapping env1 p envNameFzfBindOption.data =
      some defaultFzfBindOption.data := by
  constructor
  · exact getFzfOption_env_congr env1 env2 p (h _ (by decide)) (h1.trans h2.symm)
  · exact fzfOptionMapping_bind_default env1 p h1

/-- C10, witness: explicitly setting the bind variable to `""` on top of an
environment that leaves it unset changes nothing, and the bind reference
resolves to the built-in default. -/
theorem claimC10_witness :
    getFzfOption
      (fun n => if n = envNameFzfBindOption then ""
        else if n = envNameFzfOption then "--bind $GIT_FZF_FZF_BIND_OPTION" else "")
      "p" =
      getFzfOption
        (fun n => if n = envNameFzfOption then "--bind $GIT_FZF_FZF_BIND_OPTION" else "")
        "p" ∧
    fzfOptionMapping
      (fun n => if n = envNameFzfBindOption then ""
        else if n = envNameFzfOption then "--bind $GIT_FZF_FZF_BIND_OPTION" else "")
      "p" envNameFzfBindOption.data = some defaultFzfBindOption.data := by
  refine claimC10 _ _ "p" (by decide) (by decide) ?_
  intro n hn
  simp [hn]

end GitFzf
